import Mathlib

/-!
Verification of the genshi markup event-stream engine
(`src/genshi/filters/transform.py` and `src/genshi/output.py`).

The Python code is shallowly embedded: each generator-based stream filter
becomes a total Lean function on `List` of events, with the generator's
local state (held `prev` event, nesting depth, namespace stacks, ...)
passed explicitly.  Python 2 semantics note used throughout: a
`stream.next()` call that raises `StopIteration` inside a generator body
terminates that generator normally, so stream exhaustion inside an inner
`while` loop is embedded as a `[]` pattern that ends the output list.

Event positions (`pos` triples) are diagnostic only (threaded through
every filter unchanged, never inspected) and are omitted from the
embedding.
-/

namespace Genshi

/-- The `QName` of genshi.core: an optional namespace URI plus a local name;
equality is by the pair. -/
structure QName where
  ns : Option String
  localname : String
deriving DecidableEq, Repr

/-- Attribute list: ordered `(QName, value)` pairs (genshi `Attrs`).
Values are strings (the builder stringifies non-string values before the
stream is generated, cf. `test_nonstring_attributes`). -/
abbrev Attrs := List (QName × String)

/-- A markup stream event (`genshi.core` stream tuples, positions dropped).
`text` carries a `markup` flag: `true` embeds a `Markup` instance (already
escaped, passed through `escape` unchanged), `false` a plain string.
`empty` is the pseudo-kind synthesized by `EmptyTagFilter`. -/
inductive Event where
  | start (tag : QName) (attrs : Attrs)
  | end_ (tag : QName)
  | text (markup : Bool) (s : String)
  | comment (s : String)
  | pi (target : String) (data : String)
  | doctype (name : String) (pubid : Option String) (sysid : Option String)
  | startNS (pfx : String) (uri : String)
  | endNS (pfx : String)
  | startCDATA
  | endCDATA
  | empty (tag : QName) (attrs : Attrs)
deriving DecidableEq, Repr

/-- The transformation marks of `genshi.filters.transform`; `null` embeds
Python's `None` mark, the others the interned `TransformMark` strings. -/
inductive Mark where
  | null
  | enter
  | inside
  | outside
  | exit
deriving DecidableEq, Repr

/-- A marked event, the unit flowing through transformation stages. -/
abbrev MEvent := Mark × Event

/-- Underlying events of a marked stream (`Transformer._unmark`). -/
def events (s : List MEvent) : List Event := s.map Prod.snd

/-- Embedding of `Transformer._mark`: wrap an unmarked stream as `(None, event)` pairs. -/
def markStream (s : List Event) : List MEvent := s.map (fun e => (Mark.null, e))

/-- Result of `Selector.test`: `False`, `True`, or a substitute event. -/
inductive TestResult where
  | noMatch
  | isMatch
  | substitute (e : Event)
deriving DecidableEq, Repr

/-- The external Selector capability (`self.path.test()` in
`SelectTransformation`): a stateful test function.  The `Bool` argument is
the `updateonly` flag; the caller discards the result of `updateonly`
calls but keeps the state update. -/
structure Selector (σ : Type) where
  test : σ → Event → Bool → TestResult × σ

/-- Is the event a `START`? -/
def isStart : Event → Bool
  | Event.start _ _ => true
  | _ => false

/-- Depth adjustment of the subtree walk in `SelectTransformation`
(increment on nested `START`, decrement on `END`, unchanged otherwise). -/
def adjDepth (d : Nat) : Event → Nat
  | Event.start _ _ => d + 1
  | Event.end_ _ => d - 1
  | _ => d

/-- A selector that only ever answers `True` or `False` (never a
substitute event). -/
def BoolOnly {σ : Type} (sel : Selector σ) : Prop :=
  ∀ st e uo e2, (sel.test st e uo).1 ≠ TestResult.substitute e2

/-- Embedding of `SelectTransformation.__call__` (transform.py lines 515-546).
Mode `none` is the outer `for` loop; mode `some d` is the inner
`while depth > 0` subtree walk at depth `d`.  Stream exhaustion during the
walk (`stream.next()` raising `StopIteration`) terminates the generator
normally — the `(some _, [])` case.  Input marks are never inspected. -/
def selectGo {σ : Type} (sel : Selector σ) : Option Nat → σ → List MEvent → List MEvent
  | none, _, [] => []
  | none, st, (_, ev) :: rest =>
    let r := sel.test st ev false
    match r.1 with
    | TestResult.isMatch =>
      match ev with
      | Event.start t a => (Mark.enter, Event.start t a) :: selectGo sel (some 1) r.2 rest
      | e => (Mark.outside, e) :: selectGo sel none r.2 rest
    | TestResult.substitute e2 => (Mark.enter, e2) :: selectGo sel none r.2 rest
    | TestResult.noMatch => (Mark.null, ev) :: selectGo sel none r.2 rest
  | some _, _, [] => []
  | some d, st, (_, sub) :: rest =>
    let d' : Nat := adjDepth d sub
    let st' := (sel.test st sub true).2
    if d' = 0 then (Mark.exit, sub) :: selectGo sel none st' rest
    else (Mark.inside, sub) :: selectGo sel (some d') st' rest

/-- The selection stage applied to a marked stream. -/
def selectS {σ : Type} (sel : Selector σ) (st : σ) (s : List MEvent) : List MEvent :=
  selectGo sel none st s

/-- The error the specification postulates for malformed streams.  Nothing
in `src/genshi/filters/transform.py` defines or raises any such error. -/
inductive TransformError where
  | streamConsistencyError
deriving DecidableEq, Repr

/-- Embedding of `SelectTransformation.__call__` with the Python exception channel made
explicit.  The generator body contains no `raise` statement; its only
fallible operation, `stream.next()` at line 531, raises `StopIteration`
on exhaustion, which inside a Python 2 generator terminates iteration
normally (the `[]` cases of `selectGo`).  Hence the embedding always
returns `Except.ok`. -/
def selectExc {σ : Type} (sel : Selector σ) (st : σ) (s : List MEvent) :
    Except TransformError (List MEvent) :=
  Except.ok (selectS sel st s)

/-- Embedding of `UnwrapTransformation.__call__`: drop ENTER- and EXIT-marked events. -/
def unwrapT (s : List MEvent) : List MEvent :=
  s.filter (fun p => !(p.1 == Mark.enter || p.1 == Mark.exit))

/-- Embedding of `InvertTransformation.__call__`. -/
def invertT (s : List MEvent) : List MEvent :=
  s.map (fun p => if p.1 = Mark.null then (Mark.outside, p.2) else (Mark.null, p.2))

/-- Embedding of `EmptyTransformation.__call__`. -/
def emptyT (s : List MEvent) : List MEvent :=
  s.filter (fun p => !(p.1 == Mark.inside || p.1 == Mark.outside))

/-- Embedding of `RemoveTransformation.__call__`. -/
def removeT (s : List MEvent) : List MEvent :=
  s.filter (fun p => p.1 == Mark.null)

/-- Embedding of `WrapTransformation.__call__` (transform.py lines 616-631).  The
generated wrapper template `list(self.element.generate())` is the fixed
event list `elInit ++ [elLast]` (`element[:-1]` and `element[-1]`).
Mode `false` is the outer `for` loop; mode `true` the inner `while True`
run.  Stream exhaustion inside the inner loop ends the generator without
emitting the closing fragment (`(true, [])` case). -/
def wrapGo (elInit : List Event) (elLast : Event) : Bool → List MEvent → List MEvent
  | _, [] => []
  | false, (m, e) :: r =>
    if m = Mark.null then (m, e) :: wrapGo elInit elLast false r
    else elInit.map (fun x => (Mark.null, x)) ++ (m, e) :: wrapGo elInit elLast true r
  | true, (m, e) :: r =>
    if m = Mark.null then (Mark.null, elLast) :: (m, e) :: wrapGo elInit elLast false r
    else (m, e) :: wrapGo elInit elLast true r

/-- The wrap transformation. -/
def wrapT (elInit : List Event) (elLast : Event) (s : List MEvent) : List MEvent :=
  wrapGo elInit elLast false s

/-- Embedding of `InjectorTransformation._inject`: the resolved content events, each
yielded with the null mark (`yield None, event`).  `content` is the event
sequence `_ensure(self.content)` resolves to, computed once. -/
def inject (content : List Event) : List MEvent :=
  content.map (fun e => (Mark.null, e))

/-- Embedding of `ReplaceTransformation.__call__`.  Mode `false` is the outer loop;
mode `true` the inner `while True` that discards the rest of the selected
run until the next null-marked event. -/
def replaceGo (content : List Event) : Bool → List MEvent → List MEvent
  | _, [] => []
  | false, (m, e) :: r =>
    if m = Mark.null then (m, e) :: replaceGo content false r
    else inject content ++ replaceGo content true r
  | true, (m, e) :: r =>
    if m = Mark.null then (m, e) :: replaceGo content false r
    else replaceGo content true r

/-- The replace transformation. -/
def replaceT (content : List Event) (s : List MEvent) : List MEvent :=
  replaceGo content false s

/-- Embedding of `BeforeTransformation.__call__`. -/
def beforeT (content : List Event) : List MEvent → List MEvent
  | [] => []
  | (m, e) :: r =>
    if m = Mark.enter ∨ m = Mark.outside then inject content ++ (m, e) :: beforeT content r
    else (m, e) :: beforeT content r

/-- Embedding of `AfterTransformation.__call__`.  Mode `true` is the inner `while True`
loop that passes the rest of the run through and injects after it. -/
def afterGo (content : List Event) : Bool → List MEvent → List MEvent
  | _, [] => []
  | false, (m, e) :: r =>
    if m = Mark.null then (m, e) :: afterGo content false r
    else (m, e) :: afterGo content true r
  | true, (m, e) :: r =>
    if m = Mark.null then inject content ++ (m, e) :: afterGo content false r
    else (m, e) :: afterGo content true r

/-- The after transformation. -/
def afterT (content : List Event) (s : List MEvent) : List MEvent :=
  afterGo content false s

/-- Embedding of `PrependTransformation.__call__`. -/
def prependT (content : List Event) : List MEvent → List MEvent
  | [] => []
  | (m, e) :: r =>
    if m = Mark.enter ∨ m = Mark.outside then (m, e) :: (inject content ++ prependT content r)
    else (m, e) :: prependT content r

/-- Embedding of `AppendTransformation.__call__`.  Mode `true` is the inner
`while True` loop that runs until the EXIT-marked event. -/
def appendGo (content : List Event) : Bool → List MEvent → List MEvent
  | _, [] => []
  | false, (m, e) :: r =>
    if m = Mark.enter then (m, e) :: appendGo content true r
    else (m, e) :: appendGo content false r
  | true, (m, e) :: r =>
    if m = Mark.exit then inject content ++ (m, e) :: appendGo content false r
    else (m, e) :: appendGo content true r

/-- The append transformation. -/
def appendT (content : List Event) (s : List MEvent) : List MEvent :=
  appendGo content false s

/-! ## Serialization filters and serializers (`src/genshi/output.py`) -/

/-- Embedding of `EmptyTagFilter.__call__` (output.py lines 362-374).  The held `prev`
event matters only when it was a `START`; we carry its payload.  After the
`EMPTY` event is emitted, `prev` holds the `EMPTY` event, which the
`prev[0] is START` test treats the same as no held start. -/
def emptyGo : Option (QName × Attrs) → List Event → List Event
  | _, [] => []
  | some (t, a), ev :: rest =>
    match ev with
    | Event.end_ _ => Event.empty t a :: emptyGo none rest
    | Event.start t2 a2 => Event.start t a :: emptyGo (some (t2, a2)) rest
    | e => Event.start t a :: e :: emptyGo none rest
  | none, ev :: rest =>
    match ev with
    | Event.start t2 a2 => emptyGo (some (t2, a2)) rest
    | e => e :: emptyGo none rest

/-- The empty-tag filter. -/
def emptyTagFilter (s : List Event) : List Event := emptyGo none s

/-- The claim-side description of `EmptyTagFilter`: replace each `START`
immediately followed by its matching `END` with one `EMPTY` event carrying
the `START` payload; pass every other event sequence through unchanged. -/
def collapseEmpty : List Event → List Event
  | [] => []
  | Event.start t a :: Event.end_ t2 :: r2 =>
    if t = t2 then Event.empty t a :: collapseEmpty r2
    else Event.start t a :: Event.end_ t2 :: collapseEmpty r2
  | e :: rest => e :: collapseEmpty rest

/-- Modelled from the spec: `genshi.core.escape` (genshi/core.py is not
under src/).  Escapes `&`, `<`, `>` and — when `quotes` is set — `"` as
`&#34;`; the behavior is pinned by §4.6 of the spec and by
`src/markup/tests/core.py` (`test_escape`, `test_escape_noquotes`). -/
def escapeChar (quotes : Bool) (c : Char) : String :=
  if c = '&' then "&amp;"
  else if c = '<' then "&lt;"
  else if c = '>' then "&gt;"
  else if c = '"' ∧ quotes then "&#34;"
  else String.singleton c

/-- String escaping; a `Markup` instance is returned unchanged by
`escape`, which callers below handle via the markup flag. -/
def escapeStr (quotes : Bool) (s : String) : String :=
  String.join (s.toList.map (escapeChar quotes))

/-- Embedding of `re.compile('[ \t]+(?=\n)').sub('', ·)`: drop horizontal whitespace
immediately preceding a newline. -/
def trimChars : List Char → List Char
  | [] => []
  | c :: r =>
    let rest := trimChars r
    if (c = ' ' ∨ c = '\t') ∧ rest.head? = some '\n' then rest else c :: rest

/-- Embedding of `re.compile('\n{2,}').sub('\n', ·)`: collapse newline runs. -/
def collapseChars : List Char → List Char
  | [] => []
  | c :: r =>
    let rest := collapseChars r
    if c = '\n' ∧ rest.head? = some '\n' then rest else c :: rest

/-- Text data as buffered by `WhitespaceFilter`: markup flag and string. -/
abbrev TextData := Bool × String

/-- Escaping of one buffered text piece: `Markup` passes through,
plain strings are escaped without quotes (both the `mjoin(textbuf,
escape_quotes=False)` path and the single-item `escape(pop_text(),
quotes=False)` path reduce to this per piece). -/
def escapeTextData : TextData → String
  | (true, s) => s
  | (false, s) => escapeStr false s

/-- The URI bound to the `xml` prefix (`XML_NAMESPACE`). -/
def xmlNamespaceURI : String := "http://www.w3.org/XML/1998/namespace"

/-- The `xml:space` attribute name. -/
def xmlSpace : QName := ⟨some xmlNamespaceURI, "space"⟩

/-- Embedding of `Attrs.get`: value of the first attribute with the given name. -/
def attrsGet (a : Attrs) (n : QName) : Option String :=
  (a.find? (fun p => p.1 == n)).map Prod.snd

/-- Flushing the text buffer of `WhitespaceFilter` (output.py lines
585-593): join and escape the buffered pieces, and outside a preserve
scope trim trailing space and collapse newline runs.  The result is a
`Markup` text event. -/
def wsFlush (preserve : Nat) (buf : List TextData) : List Event :=
  match buf with
  | [] => []
  | _ =>
    let t0 := String.join (buf.map escapeTextData)
    let t1 := if preserve = 0 then String.mk (collapseChars (trimChars t0.toList)) else t0
    [Event.text true t1]

/-- Embedding of `WhitespaceFilter.__call__` (output.py lines 566-615), with the
appended `(None, None, None)` sentinel embedded as the `[]` case.  State:
the `preserve` depth counter, the `noescape` flag and the text buffer. -/
def wsGo (presElems noescElems : List QName) :
    Nat → Bool → List TextData → List Event → List Event
  | preserve, _, buf, [] => wsFlush preserve buf
  | preserve, noescape, buf, Event.text mk s :: r =>
    let d : TextData := if noescape then (true, s) else (mk, s)
    wsGo presElems noescElems preserve noescape (buf ++ [d]) r
  | preserve, noescape, buf, Event.start t a :: r =>
    let p' := if preserve ≠ 0 ∨ t ∈ presElems ∨ attrsGet a xmlSpace = some "preserve" then
        preserve + 1
      else preserve
    let ne' := if ¬noescape ∧ t ∈ noescElems then true else noescape
    wsFlush preserve buf ++ Event.start t a :: wsGo presElems noescElems p' ne' [] r
  | preserve, _, buf, Event.end_ t :: r =>
    wsFlush preserve buf ++ Event.end_ t :: wsGo presElems noescElems (preserve - 1) false [] r
  | preserve, _, buf, Event.startCDATA :: r =>
    wsFlush preserve buf ++ Event.startCDATA :: wsGo presElems noescElems preserve true [] r
  | preserve, _, buf, Event.endCDATA :: r =>
    wsFlush preserve buf ++ Event.endCDATA :: wsGo presElems noescElems preserve false [] r
  | preserve, noescape, buf, e :: r =>
    wsFlush preserve buf ++ e :: wsGo presElems noescElems preserve noescape [] r

/-- Flattened events: tag and attribute names resolved to plain strings
(the stream produced by `NamespaceFlattener` / `NamespaceStripper` and
consumed by the serializer rendering loops). -/
inductive FlatEvent where
  | start (tag : String) (attrs : List (String × String))
  | empty (tag : String) (attrs : List (String × String))
  | end_ (tag : String)
  | text (markup : Bool) (s : String)
  | comment (s : String)
  | pi (target : String) (data : String)
  | doctype (name : String) (pubid : Option String) (sysid : Option String)
  | startCDATA
  | endCDATA
deriving DecidableEq, Repr

/-- State of `NamespaceFlattener.__call__`.  `uriOf` is the runtime
`prefixes` dict (prefix → stack of URIs), `pfxOf` the `namespaces` dict
(URI → stack of prefixes); an empty list models an absent key (the code
deletes a key as soon as its stack empties, so present keys always have
non-empty stacks).  `nsAttrs` is the `ns_attrs` buffer and `ctr` the
`_gen_prefix` counter. -/
structure NSState where
  uriOf : String → List String
  pfxOf : String → List String
  nsAttrs : List (String × String)
  ctr : Nat

/-- Embedding of `_push_ns(prefix, uri)`. -/
def pushNS (st : NSState) (pfx uri : String) : NSState :=
  { st with
    pfxOf := fun u => if u = uri then st.pfxOf u ++ [pfx] else st.pfxOf u
    uriOf := fun p => if p = pfx then st.uriOf p ++ [uri] else st.uriOf p }

/-- The idiom `stack[-1]` with a default; the Python code only indexes non-empty
stacks on consistent streams. -/
def lastD (l : List String) : String := l.getLastD ""

/-- The `START`/`EMPTY` branch of `NamespaceFlattener.__call__` (output.py
lines 424-453): resolve the tag name (synthesizing an `xmlns` declaration
and pushing an unnamed binding when the tag namespace is unbound), resolve
each attribute name (pushing a generated `nsN` binding for an unbound
attribute namespace, with no declaration attribute), emit the event with
the pending `ns_attrs` prepended, and clear `ns_attrs`. -/
def flattenOpen (st : NSState) (isEmptyKind : Bool) (t : QName) (a : Attrs) :
    NSState × List FlatEvent :=
  let st1tag : NSState × String :=
    match t.ns with
    | none => (st, t.localname)
    | some uri =>
      if (st.pfxOf uri).isEmpty then
        (pushNS { st with nsAttrs := st.nsAttrs ++ [("xmlns", uri)] } "" uri, t.localname)
      else
        let p := lastD (st.pfxOf uri)
        (st, if p = "" then t.localname else p ++ ":" ++ t.localname)
  let st2attrs : NSState × List (String × String) :=
    a.foldl
      (fun acc av =>
        match av.1.ns with
        | none => (acc.1, acc.2 ++ [(av.1.localname, av.2)])
        | some uri =>
          if (acc.1.pfxOf uri).isEmpty then
            let p := "ns" ++ toString (acc.1.ctr + 1)
            (pushNS { acc.1 with ctr := acc.1.ctr + 1 } p uri,
             acc.2 ++ [(p ++ ":" ++ av.1.localname, av.2)])
          else
            let p := lastD (acc.1.pfxOf uri)
            (acc.1,
             acc.2 ++ [((if p = "" then av.1.localname else p ++ ":" ++ av.1.localname), av.2)]))
      (st1tag.1, [])
  let nm := st1tag.2
  let ats := st2attrs.1.nsAttrs ++ st2attrs.2
  ({ st2attrs.1 with nsAttrs := [] },
   [if isEmptyKind then FlatEvent.empty nm ats else FlatEvent.start nm ats])

/-- One step of `NamespaceFlattener.__call__`: next state and emitted
events for one input event. -/
def flattenStep (st : NSState) : Event → NSState × List FlatEvent
  | Event.start t a => flattenOpen st false t a
  | Event.empty t a => flattenOpen st true t a
  | Event.end_ t =>
    let nm :=
      match t.ns with
      | none => t.localname
      | some uri =>
        let p := lastD (st.pfxOf uri)
        if p = "" then t.localname else p ++ ":" ++ t.localname
    (st, [FlatEvent.end_ nm])
  | Event.startNS p uri =>
    if (st.pfxOf uri).isEmpty then
      let p2 := if (st.uriOf uri).isEmpty then p else lastD (st.uriOf uri)
      let st' :=
        { st with nsAttrs := st.nsAttrs ++ [((if p2 = "" then "xmlns" else "xmlns:" ++ p2), uri)] }
      (pushNS st' p2 uri, [])
    else (pushNS st p uri, [])
  | Event.endNS p =>
    if (st.uriOf p).isEmpty then (st, [])
    else
      let uris := st.uriOf p
      let uri := lastD uris
      let uris' := uris.dropLast
      let st1 := { st with uriOf := fun q => if q = p then uris' else st.uriOf q }
      if uri ∉ uris' ∨ uri ≠ lastD uris' then
        ({ st1 with pfxOf := fun u => if u = uri then (st1.pfxOf u).dropLast else st1.pfxOf u }, [])
      else (st1, [])
  | Event.text mk s => (st, [FlatEvent.text mk s])
  | Event.comment s => (st, [FlatEvent.comment s])
  | Event.pi tg d => (st, [FlatEvent.pi tg d])
  | Event.doctype n p sy => (st, [FlatEvent.doctype n p sy])
  | Event.startCDATA => (st, [FlatEvent.startCDATA])
  | Event.endCDATA => (st, [FlatEvent.endCDATA])

/-- Embedding of the `NamespaceFlattener.__call__` output stream. -/
def flattenGo (st : NSState) : List Event → List FlatEvent
  | [] => []
  | e :: r =>
    let s := flattenStep st e
    s.2 ++ flattenGo s.1 r

/-- The flattener state after consuming a stream. -/
def flattenFold (st : NSState) : List Event → NSState
  | [] => st
  | e :: r => flattenFold (flattenStep st e).1 r

/-- Initial flattener state for a `self.prefixes` configuration given as
`(uri, prefix)` pairs (always containing `(xmlNamespaceURI, "xml")`):
the runtime `prefixes` dict is `{v: [k] for k, v in ...}` and the runtime
`namespaces` dict starts as `{XML_NAMESPACE.uri: ['xml']}`. -/
def nsInitState (cfg : List (String × String)) : NSState :=
  { uriOf := fun p =>
      match (cfg.filter (fun kv => kv.2 = p)).getLast? with
      | some kv => [kv.1]
      | none => []
    pfxOf := fun u => if u = xmlNamespaceURI then ["xml"] else []
    nsAttrs := []
    ctr := 0 }

/-- The genshi `QName` rendered as a string: `uri}local` or `local`
(how a kept namespaced attribute name prints in `HTMLSerializer`). -/
def qnameStr (q : QName) : String :=
  match q.ns with
  | some u => u ++ "\x7d" ++ q.localname
  | none => q.localname

/-- Embedding of `qname in namespace` (genshi `Namespace.__contains__`): the qname's
namespace equals the kept URI; with no kept namespace (`self.namespace =
{}`) always false. -/
def nsKeep (keep : Option String) (q : QName) : Bool :=
  match keep, q.ns with
  | some u, some v => v = u
  | _, _ => false

/-- One event of `NamespaceStripper.__call__` (output.py lines 515-540):
`none` embeds `continue` (the event is dropped). -/
def stripEvent (keep : Option String) : Event → Option FlatEvent
  | Event.start t a =>
    if t.ns ≠ none ∧ ¬nsKeep keep t then none
    else
      some (FlatEvent.start t.localname
        ((a.filter (fun av => av.1.ns == none || nsKeep keep av.1)).map
          (fun av => (qnameStr av.1, av.2))))
  | Event.empty t a =>
    if t.ns ≠ none ∧ ¬nsKeep keep t then none
    else
      some (FlatEvent.empty t.localname
        ((a.filter (fun av => av.1.ns == none || nsKeep keep av.1)).map
          (fun av => (qnameStr av.1, av.2))))
  | Event.end_ t =>
    if t.ns ≠ none ∧ ¬nsKeep keep t then none else some (FlatEvent.end_ t.localname)
  | Event.startNS _ _ => none
  | Event.endNS _ => none
  | Event.text mk s => some (FlatEvent.text mk s)
  | Event.comment s => some (FlatEvent.comment s)
  | Event.pi tg d => some (FlatEvent.pi tg d)
  | Event.doctype n p sy => some (FlatEvent.doctype n p sy)
  | Event.startCDATA => some FlatEvent.startCDATA
  | Event.endCDATA => some FlatEvent.endCDATA

/-- Embedding of `NamespaceStripper.__call__`. -/
def stripNS (keep : Option String) (s : List Event) : List FlatEvent :=
  s.filterMap (stripEvent keep)

/-! ### Terminal serializers -/

/-- Attribute rendering of `XMLSerializer`: ` attr="esc(value)"`. -/
def renderAttrs (a : List (String × String)) : String :=
  String.join (a.map (fun kv => " " ++ kv.1 ++ "=\"" ++ escapeStr true kv.2 ++ "\""))

/-- The DOCTYPE declaration: `Markup(u''.join(buf), *filter(None, data))`
with the `PUBLIC`/`SYSTEM` parts depending on which ids are present;
format arguments are escaped by `Markup.__mod__`. -/
def doctypeStr (n : String) (pubid sysid : Option String) : String :=
  "<!DOCTYPE " ++ escapeStr true n ++
    (match pubid with
     | some p => " PUBLIC \"" ++ escapeStr true p ++ "\""
     | none => match sysid with | some _ => " SYSTEM" | none => "") ++
    (match sysid with | some sy => " \"" ++ escapeStr true sy ++ "\"" | none => "") ++
    ">\n"

/-- The rendering loop of `XMLSerializer.__call__` (output.py lines
93-137); state: `have_doctype` and `in_cdata`. -/
def xmlRenderGo : Bool → Bool → List FlatEvent → List String
  | _, _, [] => []
  | hd, cd, FlatEvent.start t a :: r => ("<" ++ t ++ renderAttrs a ++ ">") :: xmlRenderGo hd cd r
  | hd, cd, FlatEvent.empty t a :: r => ("<" ++ t ++ renderAttrs a ++ "/>") :: xmlRenderGo hd cd r
  | hd, cd, FlatEvent.end_ t :: r => ("</" ++ t ++ ">") :: xmlRenderGo hd cd r
  | hd, cd, FlatEvent.text mk s :: r =>
    (if cd then s else if mk then s else escapeStr false s) :: xmlRenderGo hd cd r
  | hd, cd, FlatEvent.comment s :: r => ("<!--" ++ s ++ "-->") :: xmlRenderGo hd cd r
  | hd, cd, FlatEvent.doctype n p sy :: r =>
    if hd then xmlRenderGo hd cd r else doctypeStr n p sy :: xmlRenderGo true cd r
  | hd, _, FlatEvent.startCDATA :: r => "<![CDATA[" :: xmlRenderGo hd true r
  | hd, _, FlatEvent.endCDATA :: r => "]]>" :: xmlRenderGo hd false r
  | hd, cd, FlatEvent.pi tg d :: r => ("<?" ++ tg ++ " " ++ d ++ "?>") :: xmlRenderGo hd cd r

/-- The set `XHTMLSerializer._BOOLEAN_ATTRS`. -/
def booleanAttrs : List String :=
  ["selected", "checked", "compact", "declare", "defer", "disabled", "ismap",
   "multiple", "nohref", "noresize", "noshade", "nowrap"]

/-- The set `XHTMLSerializer._EMPTY_ELEMS` (the void elements). -/
def emptyElems : List String :=
  ["area", "base", "basefont", "br", "col", "frame", "hr", "img", "input",
   "isindex", "link", "meta", "param"]

/-- Attribute rendering of `XHTMLSerializer`: a boolean attribute's value
is replaced by the attribute name. -/
def renderAttrsXhtml (a : List (String × String)) : String :=
  String.join (a.map (fun kv =>
    let v := if kv.1 ∈ booleanAttrs then kv.1 else kv.2
    " " ++ kv.1 ++ "=\"" ++ escapeStr true v ++ "\""))

/-- The rendering loop of `XHTMLSerializer.__call__` (output.py lines
179-231): as XML, but `EMPTY` self-closes only for void elements. -/
def xhtmlRenderGo : Bool → Bool → List FlatEvent → List String
  | _, _, [] => []
  | hd, cd, FlatEvent.start t a :: r =>
    ("<" ++ t ++ renderAttrsXhtml a ++ ">") :: xhtmlRenderGo hd cd r
  | hd, cd, FlatEvent.empty t a :: r =>
    ("<" ++ t ++ renderAttrsXhtml a ++
        (if t ∈ emptyElems then " />" else "></" ++ t ++ ">")) :: xhtmlRenderGo hd cd r
  | hd, cd, FlatEvent.end_ t :: r => ("</" ++ t ++ ">") :: xhtmlRenderGo hd cd r
  | hd, cd, FlatEvent.text mk s :: r =>
    (if cd then s else if mk then s else escapeStr false s) :: xhtmlRenderGo hd cd r
  | hd, cd, FlatEvent.comment s :: r => ("<!--" ++ s ++ "-->") :: xhtmlRenderGo hd cd r
  | hd, cd, FlatEvent.doctype n p sy :: r =>
    if hd then xhtmlRenderGo hd cd r else doctypeStr n p sy :: xhtmlRenderGo true cd r
  | hd, _, FlatEvent.startCDATA :: r => "<![CDATA[" :: xhtmlRenderGo hd true r
  | hd, _, FlatEvent.endCDATA :: r => "]]>" :: xhtmlRenderGo hd false r
  | hd, cd, FlatEvent.pi tg d :: r => ("<?" ++ tg ++ " " ++ d ++ "?>") :: xhtmlRenderGo hd cd r

/-- The set `HTMLSerializer._NOESCAPE_ELEMS` as the strings the stripped tag is
compared against. -/
def noescapeElemsHtml : List String :=
  ["script", "http://www.w3.org/1999/xhtml" ++ "\x7d" ++ "script",
   "style", "http://www.w3.org/1999/xhtml" ++ "\x7d" ++ "style"]

/-- Attribute rendering of `HTMLSerializer`: truthy boolean attributes
render bare, falsy ones are omitted. -/
def renderAttrsHtml (a : List (String × String)) : String :=
  String.join (a.map (fun kv =>
    if kv.1 ∈ booleanAttrs then (if kv.2 ≠ "" then " " ++ kv.1 else "")
    else " " ++ kv.1 ++ "=\"" ++ escapeStr true kv.2 ++ "\""))

/-- The rendering loop of `HTMLSerializer.__call__` (output.py lines
274-320); state: `have_doctype` and `noescape`.  CDATA events have no
branch and are dropped. -/
def htmlRenderGo : Bool → Bool → List FlatEvent → List String
  | _, _, [] => []
  | hd, ne, FlatEvent.start t a :: r =>
    ("<" ++ t ++ renderAttrsHtml a ++ ">") ::
      htmlRenderGo hd (if t ∈ noescapeElemsHtml then true else ne) r
  | hd, ne, FlatEvent.empty t a :: r =>
    ("<" ++ t ++ renderAttrsHtml a ++ ">" ++
        (if t ∈ emptyElems then "" else "</" ++ t ++ ">")) ::
      htmlRenderGo hd (if t ∈ noescapeElemsHtml then true else ne) r
  | hd, _, FlatEvent.end_ t :: r => ("</" ++ t ++ ">") :: htmlRenderGo hd false r
  | hd, ne, FlatEvent.text mk s :: r =>
    (if ne then s else if mk then s else escapeStr false s) :: htmlRenderGo hd ne r
  | hd, ne, FlatEvent.comment s :: r => ("<!--" ++ s ++ "-->") :: htmlRenderGo hd ne r
  | hd, ne, FlatEvent.doctype n p sy :: r =>
    if hd then htmlRenderGo hd ne r else doctypeStr n p sy :: htmlRenderGo true ne r
  | hd, ne, FlatEvent.pi tg d :: r => ("<?" ++ tg ++ " " ++ d ++ "?>") :: htmlRenderGo hd ne r
  | hd, ne, FlatEvent.startCDATA :: r => htmlRenderGo hd ne r
  | hd, ne, FlatEvent.endCDATA :: r => htmlRenderGo hd ne r

/-- The XHTML namespace URI. -/
def xhtmlURI : String := "http://www.w3.org/1999/xhtml"

/-- The set `XHTMLSerializer._PRESERVE_SPACE`. -/
def xhtmlPreserve : List QName :=
  [⟨none, "pre"⟩, ⟨some xhtmlURI, "pre"⟩, ⟨none, "textarea"⟩, ⟨some xhtmlURI, "textarea"⟩]

/-- The set `HTMLSerializer._NOESCAPE_ELEMS` as qualified names (the form passed
to `WhitespaceFilter`). -/
def htmlNoescapeQ : List QName :=
  [⟨none, "script"⟩, ⟨some xhtmlURI, "script"⟩, ⟨none, "style"⟩, ⟨some xhtmlURI, "style"⟩]

/-- Embedding of `XMLSerializer` with default options (`doctype=None` so the preamble
is empty, `strip_whitespace=True`): empty-tag filter, whitespace filter
with no preserve set, namespace flattener, rendering loop, then the
caller's concatenation of the emitted fragments. -/
def xmlSerialize (s : List Event) : String :=
  String.join (xmlRenderGo false false
    (flattenGo (nsInitState [(xmlNamespaceURI, "xml")])
      (wsGo [] [] 0 false [] (emptyTagFilter s))))

/-- Embedding of `XHTMLSerializer` with default options: the flattener is configured
with an empty prefix for the XHTML namespace. -/
def xhtmlSerialize (s : List Event) : String :=
  String.join (xhtmlRenderGo false false
    (flattenGo (nsInitState [(xmlNamespaceURI, "xml"), (xhtmlURI, "")])
      (wsGo xhtmlPreserve [] 0 false [] (emptyTagFilter s))))

/-- Embedding of `HTMLSerializer` with default options: empty-tag filter, whitespace
filter with the XHTML preserve set and script/style no-escape set, then
the namespace stripper keeping the XHTML namespace. -/
def htmlSerialize (s : List Event) : String :=
  String.join (htmlRenderGo false false
    (stripNS (some xhtmlURI)
      (wsGo xhtmlPreserve htmlNoescapeQ 0 false [] (emptyTagFilter s))))

/-! ## Stream predicates and concrete fixtures -/

/-- Well-formedness check with an explicit stack of open tags: every
`START` has a matching `END` at the same nesting depth. -/
def checkB : List QName → List Event → Bool
  | stk, [] => stk.isEmpty
  | stk, Event.start t _ :: r => checkB (t :: stk) r
  | stk, Event.end_ t :: r =>
    match stk with
    | [] => false
    | t2 :: stk2 => t == t2 && checkB stk2 r
  | stk, _ :: r => checkB stk r

/-- A well-formed stream (§3 Stream invariant). -/
def wellFormed (s : List Event) : Bool := checkB [] s

/-- The mark-shape invariant of the Selection stage: the stream is a
sequence of `NONE`-marked events, single `OUTSIDE`-marked non-`START`
events, and subtrees of the exact shape `ENTER, INSIDE*, EXIT` where the
`EXIT` falls on the event returning the relative depth to zero.  Mode
`some d` means we are inside a selected subtree at relative depth `d`. -/
def marksChk : Option Nat → List MEvent → Bool
  | none, [] => true
  | none, (m, e) :: r =>
    match m with
    | Mark.null => marksChk none r
    | Mark.outside => !isStart e && marksChk none r
    | Mark.enter => isStart e && marksChk (some 1) r
    | _ => false
  | some _, [] => false
  | some d, (m, e) :: r =>
    let d' := adjDepth d e
    if d' = 0 then m == Mark.exit && marksChk none r
    else m == Mark.inside && marksChk (some d') r

/-- Top-level mark-shape invariant. -/
def marksWF (s : List MEvent) : Bool := marksChk none s

/-- Starting at depth `d`, the stream ends before the depth ever returns
to zero (a malformed, unterminated subtree). -/
def neverCloses : Nat → List Event → Bool
  | _, [] => true
  | d, e :: r =>
    let d' := adjDepth d e
    d' != 0 && neverCloses d' r

/-- An unqualified name. -/
def qn (s : String) : QName := ⟨none, s⟩

/-- A stateless selector matching exactly `START` events with the given
unqualified tag (the behavior of the path `nm` on the fixtures below),
always answering `True` or `False`. -/
def selTag (nm : String) : Selector Unit :=
  ⟨fun _ e _ =>
    (match e with
     | Event.start t _ => if t = qn nm then TestResult.isMatch else TestResult.noMatch
     | _ => TestResult.noMatch,
     ())⟩

/-- The event stream of `<a><b/><c/></a>`. -/
def streamABC : List Event :=
  [Event.start (qn "a") [], Event.start (qn "b") [], Event.end_ (qn "b"),
   Event.start (qn "c") [], Event.end_ (qn "c"), Event.end_ (qn "a")]

/-- Modelled from the spec: the event stream generated by the built
fragment `tag.div(tag.a(href='foo'), tag.br, tag.hr(noshade=True))`
(genshi/builder.py is not under src/).  The builder emits a START/END
pair per element, with attribute values stringified when the stream is
generated (`test_nonstring_attributes` in src/genshi/tests/builder.py),
so `noshade=True` becomes the string `"True"`. -/
def divFragment : List Event :=
  [Event.start (qn "div") [],
   Event.start (qn "a") [(qn "href", "foo")], Event.end_ (qn "a"),
   Event.start (qn "br") [], Event.end_ (qn "br"),
   Event.start (qn "hr") [(qn "noshade", "True")], Event.end_ (qn "hr"),
   Event.end_ (qn "div")]

/-- The event stream of
`<body>Some <em>body</em> text.</body>` (the transform.py doctest
document, reduced to the body). -/
def streamBodyEm : List Event :=
  [Event.start (qn "body") [], Event.text false "Some ",
   Event.start (qn "em") [], Event.text false "body", Event.end_ (qn "em"),
   Event.text false " text.", Event.end_ (qn "body")]





/-! ## Helper lemmas -/

theorem events_nil : events [] = [] := rfl

theorem events_cons (p : MEvent) (s : List MEvent) : events (p :: s) = p.2 :: events s := rfl

theorem inject_mark_null {content : List Event} {p : MEvent} (h : p ∈ inject content) :
    p.1 = Mark.null := by
  rcases List.mem_map.mp h with ⟨e, _, rfl⟩
  rfl

theorem wrapGo_nulls (elInit : List Event) (elLast : Event) (t u : List MEvent)
    (ht : ∀ p ∈ t, p.1 = Mark.null) :
    wrapGo elInit elLast false (t ++ u) = t ++ wrapGo elInit elLast false u := by
  induction t with
  | nil => rfl
  | cons p r ih =>
    obtain ⟨m, e⟩ := p
    have hm : m = Mark.null := ht (m, e) (List.mem_cons_self _ _)
    subst hm
    simp [wrapGo, ih (fun q hq => ht q (List.mem_cons_of_mem _ hq))]

theorem wrapGo_run (elInit : List Event) (elLast : Event) (r v : List MEvent)
    (hr : ∀ p ∈ r, p.1 ≠ Mark.null) :
    wrapGo elInit elLast true (r ++ v) = r ++ wrapGo elInit elLast true v := by
  induction r with
  | nil => rfl
  | cons p rr ih =>
    obtain ⟨m, e⟩ := p
    have hm : m ≠ Mark.null := hr (m, e) (List.mem_cons_self _ _)
    simp [wrapGo, hm, ih (fun q hq => hr q (List.mem_cons_of_mem _ hq))]

theorem selectGo_walk_inside {σ : Type} (sel : Selector σ) :
    ∀ (s : List MEvent) (d : Nat) (st : σ), d ≠ 0 → neverCloses d (events s) = true →
      selectGo sel (some d) st s = s.map (fun p => (Mark.inside, p.2)) := by
  intro s
  induction s with
  | nil => intro d st _ _; rfl
  | cons p r ih =>
    intro d st hd hnc
    obtain ⟨m, e⟩ := p
    simp only [events, List.map_cons, neverCloses, Bool.and_eq_true, bne_iff_ne, ne_eq] at hnc
    have hout := ih (adjDepth d e) ((sel.test st e true).2) hnc.1 hnc.2
    simp [selectGo, hnc.1, hout, events]

/-! ## Claims -/

/-- C1 (corrected).  The spec postulates that a malformed stream — the
stream ends while a matched subtree is still open — surfaces a fatal
`StreamConsistencyError`.  The code has no such error: the generator body
of `SelectTransformation.__call__` contains no `raise`, and the
`stream.next()` in its subtree walk raising `StopIteration` merely
terminates the generator (Python 2 semantics).  Amended: the
transformation returns normally, emitting `ENTER` for the matched START
and `INSIDE` for every remaining event, silently absorbing the
imbalance. -/
theorem select_silently_absorbs_unterminated_match {σ : Type} (sel : Selector σ) (st : σ)
    (m : Mark) (t : QName) (a : Attrs) (rest : List MEvent)
    (hm : (sel.test st (Event.start t a) false).1 = TestResult.isMatch)
    (hnc : neverCloses 1 (events rest) = true) :
    selectExc sel st ((m, Event.start t a) :: rest) =
      Except.ok ((Mark.enter, Event.start t a) :: rest.map (fun p => (Mark.inside, p.2))) := by
  have hwalk := selectGo_walk_inside sel rest 1 ((sel.test st (Event.start t a) false).2)
    (by decide) hnc
  simp [selectExc, selectS, selectGo, hm, hwalk]

/-- C1 witness: the amended theorem applied to the concrete malformed
stream `<b>` followed by text, with both hypotheses discharged. -/
theorem select_silently_absorbs_unterminated_match_witness :
    ((selTag "b").test () (Event.start (qn "b") []) false).1 = TestResult.isMatch ∧
    neverCloses 1 (events [((Mark.null : Mark), Event.text false "x")]) = true ∧
    selectExc (selTag "b") ()
        [(Mark.null, Event.start (qn "b") []), (Mark.null, Event.text false "x")] =
      Except.ok [(Mark.enter, Event.start (qn "b") []), (Mark.inside, Event.text false "x")] :=
  ⟨by decide, by decide, by
    simpa using select_silently_absorbs_unterminated_match (selTag "b") () Mark.null (qn "b") []
      [(Mark.null, Event.text false "x")] (by decide) (by decide)⟩

/-- C1 counterexample: the claim as stated is false — on the malformed
stream consisting of a single matched `START` with no `END`, the
transformation returns `Except.ok` (a truncated marked stream), not a
`StreamConsistencyError`. -/
theorem select_malformed_returns_ok_not_error :
    wellFormed (events [((Mark.null : Mark), Event.start (qn "b") [])]) = false ∧
    selectExc (selTag "b") () [(Mark.null, Event.start (qn "b") [])] =
      Except.ok [(Mark.enter, Event.start (qn "b") [])] :=
  ⟨rfl, rfl⟩

theorem selectGo_ignores_marks {σ : Type} (sel : Selector σ) :
    ∀ (s : List MEvent) (mode : Option Nat) (st : σ),
      selectGo sel mode st s = selectGo sel mode st (s.map (fun p => (Mark.null, p.2))) := by
  intro s
  induction s with
  | nil => intro mode st; cases mode <;> rfl
  | cons p r ih =>
    intro mode st
    obtain ⟨m, e⟩ := p
    cases mode with
    | none =>
      simp only [List.map_cons, selectGo]
      cases (sel.test st e false).1 with
      | isMatch => cases e <;> simp [ih]
      | substitute e2 => simp [ih]
      | noMatch => simp [ih]
    | some d =>
      simp only [List.map_cons, selectGo]
      by_cases hd : adjDepth d e = 0 <;> simp [hd, ih]

/-- C3 (corrected, amended).  The spec claims that events not matched by
a mid-chain `select` retain their earlier marks.  They do not: line 546
of transform.py yields `None, event` for every unmatched event, so prior
marks are discarded.  Amended: the selection stage ignores incoming
marks entirely — its output on any marked stream equals its output on the
same underlying events with all marks reset to `NONE` (unmatched events
get `NONE`, matched events get fresh marks). -/
theorem select_discards_prior_marks {σ : Type} (sel : Selector σ) (st : σ) (s : List MEvent) :
    selectS sel st s = selectS sel st (markStream (events s)) := by
  have h := selectGo_ignores_marks sel s none st
  simpa [selectS, markStream, events, List.map_map, Function.comp] using h

/-- C3 counterexample: an unmatched event that arrives already marked
`OUTSIDE` leaves the selection stage marked `NONE`, not `OUTSIDE` — the
prior mark is not retained. -/
theorem select_prior_mark_not_retained :
    selectS (selTag "b") () [(Mark.outside, Event.text false "x")] =
      [(Mark.null, Event.text false "x")] ∧ Mark.null ≠ Mark.outside :=
  ⟨rfl, by decide⟩

/-- C6 (confirmed): serializing the stream built from
`div(a(href="foo"), br, hr(noshade=True))` and concatenating the emitted
fragments yields exactly the three claimed strings: XML self-closes every
empty element and renders `noshade="True"`; XHTML self-closes only void
elements and renders the boolean attribute as `noshade="noshade"`; HTML
never self-closes and renders the truthy boolean attribute bare. -/
theorem serializers_div_fragment :
    xmlSerialize divFragment = "<div><a href=\"foo\"/><br/><hr noshade=\"True\"/></div>" ∧
    xhtmlSerialize divFragment = "<div><a href=\"foo\"></a><br /><hr noshade=\"noshade\" /></div>" ∧
    htmlSerialize divFragment = "<div><a href=\"foo\"></a><br><hr noshade></div>" := by
  refine ⟨?_, ?_, ?_⟩ <;> decide

/-- C7 (corrected, amended).  The spec claims the flattener pops, on END,
exactly the bindings pushed at the matching START.  The END branch of
`NamespaceFlattener.__call__` pops nothing: it only resolves the tag name
and yields; bindings pushed at a START (synthesized for an unbound tag or
attribute namespace) stay in effect for the rest of the stream, and only
`END_NS` events pop.  Amended: processing an END event leaves the
flattener state completely unchanged, so the state after any stream is
the same with or without its END events. -/
theorem flatten_end_event_preserves_state :
    (∀ (st : NSState) (t : QName), (flattenStep st (Event.end_ t)).1 = st) ∧
    (∀ (st : NSState) (t : QName) (s1 s2 : List Event),
      flattenFold st (s1 ++ Event.end_ t :: s2) = flattenFold st (s1 ++ s2)) := by
  constructor
  · intro st t; rfl
  · intro st t s1 s2
    induction s1 generalizing st with
    | nil => rfl
    | cons e r ih => simp only [List.cons_append, flattenFold]; exact ih _

/-- C7 counterexample: the binding synthesized at `<doc xmlns="NS1">`'s
START (the empty prefix pushed for `NS1`) is still in effect after the
matching END — the state still maps `NS1` to the pushed prefix stack, and
a second `NS1` element later in the stream is emitted without any fresh
`xmlns` declaration. -/
theorem flatten_binding_persists_after_end :
    (flattenFold (nsInitState [(xmlNamespaceURI, "xml")])
        [Event.start ⟨some "NS1", "doc"⟩ [], Event.end_ ⟨some "NS1", "doc"⟩]).pfxOf "NS1" =
      [""] ∧
    flattenGo (nsInitState [(xmlNamespaceURI, "xml")])
        [Event.start ⟨some "NS1", "doc"⟩ [], Event.end_ ⟨some "NS1", "doc"⟩,
         Event.start ⟨some "NS1", "doc2"⟩ [], Event.end_ ⟨some "NS1", "doc2"⟩] =
      [FlatEvent.start "doc" [("xmlns", "NS1")], FlatEvent.end_ "doc",
       FlatEvent.start "doc2" [], FlatEvent.end_ "doc2"] := by
  refine ⟨?_, ?_⟩ <;> decide

/-- C8 (confirmed): `NamespaceStripper` omits the START/END wrapper
events of every element whose tag lies in a non-kept namespace while
still emitting the events between them (processed by the same per-event
rule), rather than dropping the whole subtree. -/
theorem stripNS_omits_wrapper_keeps_children (keep : Option String) (t : QName) (a : Attrs)
    (s1 mid s2 : List Event) (hns : t.ns ≠ none) (hkeep : nsKeep keep t = false) :
    stripNS keep (s1 ++ Event.start t a :: mid ++ Event.end_ t :: s2) =
      stripNS keep s1 ++ stripNS keep mid ++ stripNS keep s2 := by
  have hstart : stripEvent keep (Event.start t a) = none := by
    simp [stripEvent, hns, hkeep]
  have hend : stripEvent keep (Event.end_ t) = none := by
    simp [stripEvent, hns, hkeep]
  simp [stripNS, List.filterMap_append, List.filterMap_cons, hstart, hend]

/-- C8 witness: the theorem applied to `<doc xmlns="NS1"><two:item
xmlns:two="NS2">x</two:item></doc>`-style events with kept namespace NS1:
the `NS2` wrapper disappears, its text child stays. -/
theorem stripNS_omits_wrapper_keeps_children_witness :
    ((⟨some "NS2", "item"⟩ : QName).ns ≠ none ∧
      nsKeep (some "NS1") ⟨some "NS2", "item"⟩ = false) ∧
    stripNS (some "NS1")
        ([Event.start ⟨some "NS1", "doc"⟩ []] ++
          Event.start ⟨some "NS2", "item"⟩ [] :: [Event.text false "x"] ++
            Event.end_ ⟨some "NS2", "item"⟩ :: [Event.end_ ⟨some "NS1", "doc"⟩]) =
      stripNS (some "NS1") [Event.start ⟨some "NS1", "doc"⟩ []] ++
        stripNS (some "NS1") [Event.text false "x"] ++
          stripNS (some "NS1") [Event.end_ ⟨some "NS1", "doc"⟩] :=
  ⟨⟨by decide, by decide⟩,
    stripNS_omits_wrapper_keeps_children (some "NS1") ⟨some "NS2", "item"⟩ [] _ _ _
      (by decide) (by decide)⟩

/-- C10 (confirmed): when the selected run extends to the very end of the
input, `WrapTransformation` emits the template's opening fragment and the
run's own events but terminates without the closing fragment (the
`stream.next()` StopIteration ends the generator); the closing fragment
is emitted exactly when a `NONE`-marked event follows the run. -/
theorem wrap_open_run_omits_closing (elInit : List Event) (elLast : Event)
    (t r u : List MEvent) (x : MEvent)
    (ht : ∀ p ∈ t, p.1 = Mark.null) (hr : ∀ p ∈ r, p.1 ≠ Mark.null) (hne : r ≠ [])
    (hx : x.1 = Mark.null) :
    wrapT elInit elLast (t ++ r) = t ++ elInit.map (fun y => (Mark.null, y)) ++ r ∧
    wrapT elInit elLast (t ++ r ++ x :: u) =
      t ++ elInit.map (fun y => (Mark.null, y)) ++ r ++
        (Mark.null, elLast) :: x :: wrapGo elInit elLast false u := by
  cases r with
  | nil => exact absurd rfl hne
  | cons p r' =>
    obtain ⟨m, e⟩ := p
    obtain ⟨mx, ex⟩ := x
    have hm : m ≠ Mark.null := hr (m, e) (List.mem_cons_self _ _)
    have hr' : ∀ q ∈ r', q.1 ≠ Mark.null := fun q hq => hr q (List.mem_cons_of_mem _ hq)
    have hx' : mx = Mark.null := hx
    subst hx'
    constructor
    · have hrun := wrapGo_run elInit elLast r' [] hr'
      simp only [List.append_nil] at hrun
      simp [wrapT, wrapGo_nulls elInit elLast t _ ht, wrapGo, hm, hrun]
    · have hrun := wrapGo_run elInit elLast r' ((Mark.null, ex) :: u) hr'
      simp [wrapT, List.append_assoc, wrapGo_nulls elInit elLast t _ ht, wrapGo, hm, hrun]

/-- C10 witness: a run `ENTER, EXIT` at the end of the stream gets the
opening `<strong>` fragment but no closing fragment; with a trailing
`NONE` event the closing fragment appears. -/
theorem wrap_open_run_omits_closing_witness :
    ((∀ p ∈ [((Mark.null : Mark), Event.text false "pre")], p.1 = Mark.null) ∧
      (∀ p ∈ [((Mark.enter : Mark), Event.start (qn "em") []),
              ((Mark.exit : Mark), Event.end_ (qn "em"))], p.1 ≠ Mark.null) ∧
      ((Mark.null : Mark), Event.text false "post").1 = Mark.null) ∧
    wrapT [Event.start (qn "strong") []] (Event.end_ (qn "strong"))
        ([((Mark.null : Mark), Event.text false "pre")] ++
          [(Mark.enter, Event.start (qn "em") []), (Mark.exit, Event.end_ (qn "em"))]) =
      [((Mark.null : Mark), Event.text false "pre")] ++
        [Event.start (qn "strong") []].map (fun y => (Mark.null, y)) ++
          [(Mark.enter, Event.start (qn "em") []), (Mark.exit, Event.end_ (qn "em"))] :=
  ⟨⟨by decide, by decide, rfl⟩,
    (wrap_open_run_omits_closing [Event.start (qn "strong") []] (Event.end_ (qn "strong"))
      [(Mark.null, Event.text false "pre")]
      [(Mark.enter, Event.start (qn "em") []), (Mark.exit, Event.end_ (qn "em"))]
      [] ((Mark.null : Mark), Event.text false "post")
      (by decide) (by decide) (by decide) rfl).1⟩

theorem replaceGo_mem (content : List Event) :
    ∀ (s : List MEvent) (mode : Bool) (p : MEvent),
      p ∈ replaceGo content mode s → p ∈ s ∨ p.1 = Mark.null := by
  intro s
  induction s with
  | nil => intro mode p h; cases mode <;> simp [replaceGo] at h
  | cons q r ih =>
    intro mode p h
    obtain ⟨m, e⟩ := q
    by_cases hm : m = Mark.null
    · subst hm
      have hh : p = (Mark.null, e) ∨ p ∈ replaceGo content false r := by
        cases mode <;> simpa [replaceGo] using h
      rcases hh with hh | hh
      · exact Or.inr (by rw [hh])
      · rcases ih false p hh with h2 | h2
        · exact Or.inl (List.mem_cons_of_mem _ h2)
        · exact Or.inr h2
    · cases mode with
      | false =>
        rw [show replaceGo content false ((m, e) :: r) =
            inject content ++ replaceGo content true r from by simp [replaceGo, hm]] at h
        rcases List.mem_append.mp h with hh | hh
        · exact Or.inr (inject_mark_null hh)
        · rcases ih true p hh with h2 | h2
          · exact Or.inl (List.mem_cons_of_mem _ h2)
          · exact Or.inr h2
      | true =>
        rw [show replaceGo content true ((m, e) :: r) = replaceGo content true r from by
          simp [replaceGo, hm]] at h
        rcases ih true p h with h2 | h2
        · exact Or.inl (List.mem_cons_of_mem _ h2)
        · exact Or.inr h2

theorem beforeT_mem (content : List Event) :
    ∀ (s : List MEvent) (p : MEvent), p ∈ beforeT content s → p ∈ s ∨ p.1 = Mark.null := by
  intro s
  induction s with
  | nil => intro p h; simp [beforeT] at h
  | cons q r ih =>
    intro p h
    obtain ⟨m, e⟩ := q
    by_cases hm : m = Mark.enter ∨ m = Mark.outside
    · rw [show beforeT content ((m, e) :: r) =
          inject content ++ (m, e) :: beforeT content r from by simp [beforeT, hm]] at h
      rcases List.mem_append.mp h with hh | hh
      · exact Or.inr (inject_mark_null hh)
      · rcases List.mem_cons.mp hh with hh2 | hh2
        · exact Or.inl (by rw [hh2]; exact List.mem_cons_self _ _)
        · rcases ih p hh2 with h2 | h2
          · exact Or.inl (List.mem_cons_of_mem _ h2)
          · exact Or.inr h2
    · rw [show beforeT content ((m, e) :: r) = (m, e) :: beforeT content r from by
        simp [beforeT, hm]] at h
      rcases List.mem_cons.mp h with hh | hh
      · exact Or.inl (by rw [hh]; exact List.mem_cons_self _ _)
      · rcases ih p hh with h2 | h2
        · exact Or.inl (List.mem_cons_of_mem _ h2)
        · exact Or.inr h2

theorem afterGo_mem (content : List Event) :
    ∀ (s : List MEvent) (mode : Bool) (p : MEvent),
      p ∈ afterGo content mode s → p ∈ s ∨ p.1 = Mark.null := by
  intro s
  induction s with
  | nil => intro mode p h; cases mode <;> simp [afterGo] at h
  | cons q r ih =>
    intro mode p h
    obtain ⟨m, e⟩ := q
    by_cases hm : m = Mark.null
    · subst hm
      cases mode with
      | false =>
        rw [show afterGo content false ((Mark.null, e) :: r) =
            (Mark.null, e) :: afterGo content false r from by simp [afterGo]] at h
        rcases List.mem_cons.mp h with hh | hh
        · exact Or.inr (by rw [hh])
        · rcases ih false p hh with h2 | h2
          · exact Or.inl (List.mem_cons_of_mem _ h2)
          · exact Or.inr h2
      | true =>
        rw [show afterGo content true ((Mark.null, e) :: r) =
            inject content ++ (Mark.null, e) :: afterGo content false r from by
          simp [afterGo]] at h
        rcases List.mem_append.mp h with hh | hh
        · exact Or.inr (inject_mark_null hh)
        · rcases List.mem_cons.mp hh with hh2 | hh2
          · exact Or.inr (by rw [hh2])
          · rcases ih false p hh2 with h2 | h2
            · exact Or.inl (List.mem_cons_of_mem _ h2)
            · exact Or.inr h2
    · have hstep : ∀ md : Bool, afterGo content md ((m, e) :: r) =
          (m, e) :: afterGo content true r := by
        intro md; cases md <;> simp [afterGo, hm]
      rw [hstep mode] at h
      rcases List.mem_cons.mp h with hh | hh
      · exact Or.inl (by rw [hh]; exact List.mem_cons_self _ _)
      · rcases ih true p hh with h2 | h2
        · exact Or.inl (List.mem_cons_of_mem _ h2)
        · exact Or.inr h2

theorem prependT_mem (content : List Event) :
    ∀ (s : List MEvent) (p : MEvent), p ∈ prependT content s → p ∈ s ∨ p.1 = Mark.null := by
  intro s
  induction s with
  | nil => intro p h; simp [prependT] at h
  | cons q r ih =>
    intro p h
    obtain ⟨m, e⟩ := q
    by_cases hm : m = Mark.enter ∨ m = Mark.outside
    · rw [show prependT content ((m, e) :: r) =
          (m, e) :: (inject content ++ prependT content r) from by simp [prependT, hm]] at h
      rcases List.mem_cons.mp h with hh | hh
      · exact Or.inl (by rw [hh]; exact List.mem_cons_self _ _)
      · rcases List.mem_append.mp hh with hh2 | hh2
        · exact Or.inr (inject_mark_null hh2)
        · rcases ih p hh2 with h2 | h2
          · exact Or.inl (List.mem_cons_of_mem _ h2)
          · exact Or.inr h2
    · rw [show prependT content ((m, e) :: r) = (m, e) :: prependT content r from by
        simp [prependT, hm]] at h
      rcases List.mem_cons.mp h with hh | hh
      · exact Or.inl (by rw [hh]; exact List.mem_cons_self _ _)
      · rcases ih p hh with h2 | h2
        · exact Or.inl (List.mem_cons_of_mem _ h2)
        · exact Or.inr h2

theorem appendGo_mem (content : List Event) :
    ∀ (s : List MEvent) (mode : Bool) (p : MEvent),
      p ∈ appendGo content mode s → p ∈ s ∨ p.1 = Mark.null := by
  intro s
  induction s with
  | nil => intro mode p h; cases mode <;> simp [appendGo] at h
  | cons q r ih =>
    intro mode p h
    obtain ⟨m, e⟩ := q
    cases mode with
    | false =>
      by_cases hm : m = Mark.enter
      · rw [show appendGo content false ((m, e) :: r) =
            (m, e) :: appendGo content true r from by simp [appendGo, hm]] at h
        rcases List.mem_cons.mp h with hh | hh
        · exact Or.inl (by rw [hh]; exact List.mem_cons_self _ _)
        · rcases ih true p hh with h2 | h2
          · exact Or.inl (List.mem_cons_of_mem _ h2)
          · exact Or.inr h2
      · rw [show appendGo content false ((m, e) :: r) =
            (m, e) :: appendGo content false r from by simp [appendGo, hm]] at h
        rcases List.mem_cons.mp h with hh | hh
        · exact Or.inl (by rw [hh]; exact List.mem_cons_self _ _)
        · rcases ih false p hh with h2 | h2
          · exact Or.inl (List.mem_cons_of_mem _ h2)
          · exact Or.inr h2
    | true =>
      by_cases hm : m = Mark.exit
      · rw [show appendGo content true ((m, e) :: r) =
            inject content ++ (m, e) :: appendGo content false r from by
          simp [appendGo, hm]] at h
        rcases List.mem_append.mp h with hh | hh
        · exact Or.inr (inject_mark_null hh)
        · rcases List.mem_cons.mp hh with hh2 | hh2
          · exact Or.inl (by rw [hh2]; exact List.mem_cons_self _ _)
          · rcases ih false p hh2 with h2 | h2
            · exact Or.inl (List.mem_cons_of_mem _ h2)
            · exact Or.inr h2
      · rw [show appendGo content true ((m, e) :: r) =
            (m, e) :: appendGo content true r from by simp [appendGo, hm]] at h
        rcases List.mem_cons.mp h with hh | hh
        · exact Or.inl (by rw [hh]; exact List.mem_cons_self _ _)
        · rcases ih true p hh with h2 | h2
          · exact Or.inl (List.mem_cons_of_mem _ h2)
          · exact Or.inr h2

/-- C9 (confirmed): `_inject` yields every content event with the null
mark, and consequently every event emitted by the injector family
(Replace, Before, After, Prepend, Append) that is not an event of the
input stream — i.e. every injected event — carries Mark `NONE`. -/
theorem injectors_mark_content_null (content : List Event) (s : List MEvent) (p : MEvent) :
    (∀ q ∈ inject content, q.1 = Mark.null) ∧
    (p ∈ replaceT content s → p ∈ s ∨ p.1 = Mark.null) ∧
    (p ∈ beforeT content s → p ∈ s ∨ p.1 = Mark.null) ∧
    (p ∈ afterT content s → p ∈ s ∨ p.1 = Mark.null) ∧
    (p ∈ prependT content s → p ∈ s ∨ p.1 = Mark.null) ∧
    (p ∈ appendT content s → p ∈ s ∨ p.1 = Mark.null) :=
  ⟨fun _ hq => inject_mark_null hq,
   replaceGo_mem content s false p,
   beforeT_mem content s p,
   afterGo_mem content s false p,
   prependT_mem content s p,
   appendGo_mem content s false p⟩

/-- C9 witness: the replace transformation on an `OUTSIDE`-marked text
event emits the injected text with mark `NONE`. -/
theorem injectors_mark_content_null_witness :
    replaceT [Event.text false "new"] [(Mark.outside, Event.text false "old")] =
      [((Mark.null : Mark), Event.text false "new")] ∧
    (((Mark.null : Mark), Event.text false "new") ∈
        ([((Mark.outside : Mark), Event.text false "old")] : List MEvent) ∨
      ((Mark.null : Mark), Event.text false "new").1 = Mark.null) :=
  ⟨rfl,
    (injectors_mark_content_null [Event.text false "new"]
        [(Mark.outside, Event.text false "old")]
        ((Mark.null : Mark), Event.text false "new")).2.1 (by decide)⟩

theorem unwrapT_all_kept (s : List MEvent)
    (h : ∀ p ∈ s, p.1 = Mark.null ∨ p.1 = Mark.inside ∨ p.1 = Mark.outside) :
    unwrapT s = s := by
  apply List.filter_eq_self.mpr
  intro a ha
  rcases h a ha with h1 | h1 | h1 <;> simp [h1]

/-- C4 (corrected, amended).  The spec's round-trip law
`select(P).wrap(E).unwrap() = id` fails: `unwrap` drops the
ENTER/EXIT-marked START/END of the matched element while the wrapper
events emitted by `wrap` carry mark `NONE` and survive, so the pipeline
replaces each matched element's own tags with the wrapper's open/close
events (it is an identity only when those coincide).  Stated for one
selected subtree in the mark shape the Selection stage produces. -/
theorem wrap_unwrap_replaces_matched_tags (elInit : List Event) (elLast : Event)
    (pre mid post : List MEvent) (s0 e0 : Event)
    (hpre : ∀ p ∈ pre, p.1 = Mark.null) (hmid : ∀ p ∈ mid, p.1 = Mark.inside)
    (hpost : ∀ p ∈ post, p.1 = Mark.null) (hne : post ≠ []) :
    events (unwrapT (wrapT elInit elLast
        (pre ++ (Mark.enter, s0) :: mid ++ (Mark.exit, e0) :: post))) =
      events pre ++ elInit ++ events mid ++ elLast :: events post ∧
    events (pre ++ (Mark.enter, s0) :: mid ++ (Mark.exit, e0) :: post) =
      events pre ++ s0 :: events mid ++ e0 :: events post := by
  cases post with
  | nil => exact absurd rfl hne
  | cons px post' =>
    obtain ⟨mpx, epx⟩ := px
    have hpx : mpx = Mark.null := hpost (mpx, epx) (List.mem_cons_self _ _)
    subst hpx
    have hmid' : ∀ p ∈ mid, p.1 ≠ Mark.null := by
      intro p hp; rw [hmid p hp]; decide
    have hpost' : ∀ p ∈ post', p.1 = Mark.null :=
      fun p hp => hpost p (List.mem_cons_of_mem _ hp)
    have hwrap : wrapT elInit elLast
        (pre ++ (Mark.enter, s0) :: mid ++ (Mark.exit, e0) :: (Mark.null, epx) :: post') =
        pre ++ elInit.map (fun y => (Mark.null, y)) ++
          (Mark.enter, s0) :: mid ++
            (Mark.exit, e0) :: (Mark.null, elLast) :: (Mark.null, epx) :: post' := by
      have hruns := wrapGo_run elInit elLast mid
        ((Mark.exit, e0) :: (Mark.null, epx) :: post') hmid'
      have hnul2 := wrapGo_nulls elInit elLast post' [] hpost'
      simp only [List.append_nil] at hnul2
      simp [wrapT, wrapGo_nulls elInit elLast pre _ hpre, wrapGo, hruns, hnul2]
    rw [hwrap]
    constructor
    · have hkeep1 : unwrapT pre = pre :=
        unwrapT_all_kept pre (fun p hp => Or.inl (hpre p hp))
      have hkeep2 : unwrapT (elInit.map (fun y => (Mark.null, y))) =
          elInit.map (fun y => (Mark.null, y)) := by
        apply unwrapT_all_kept
        intro p hp
        rcases List.mem_map.mp hp with ⟨y, _, rfl⟩
        exact Or.inl rfl
      have hkeep3 : unwrapT mid = mid :=
        unwrapT_all_kept mid (fun p hp => Or.inr (Or.inl (hmid p hp)))
      have hkeep4 : unwrapT post' = post' :=
        unwrapT_all_kept post' (fun p hp => Or.inl (hpost' p hp))
      simp only [unwrapT, Bool.not_or] at hkeep1 hkeep2 hkeep3 hkeep4
      simp [events, unwrapT, List.filter_append, List.filter_cons,
        hkeep1, hkeep2, hkeep3, hkeep4, List.map_map, Function.comp]
    · simp [events]

/-- C4 witness: the amended theorem applied to the marked stream of
`<body>Some <em>body</em> text.</body>` with the `em` subtree selected
and a `strong` wrapper. -/
theorem wrap_unwrap_replaces_matched_tags_witness :
    ((∀ p ∈ [((Mark.null : Mark), Event.start (qn "body") []),
             ((Mark.null : Mark), Event.text false "Some ")], p.1 = Mark.null) ∧
      (∀ p ∈ [((Mark.inside : Mark), Event.text false "body")], p.1 = Mark.inside) ∧
      (∀ p ∈ [((Mark.null : Mark), Event.text false " text."),
              ((Mark.null : Mark), Event.end_ (qn "body"))], p.1 = Mark.null)) ∧
    events (unwrapT (wrapT [Event.start (qn "strong") []] (Event.end_ (qn "strong"))
        ([(Mark.null, Event.start (qn "body") []), (Mark.null, Event.text false "Some ")] ++
          (Mark.enter, Event.start (qn "em") []) ::
            [(Mark.inside, Event.text false "body")] ++
              (Mark.exit, Event.end_ (qn "em")) ::
                [(Mark.null, Event.text false " text."),
                 (Mark.null, Event.end_ (qn "body"))]))) =
      events [((Mark.null : Mark), Event.start (qn "body") []),
              ((Mark.null : Mark), Event.text false "Some ")] ++
        [Event.start (qn "strong") []] ++
          events [((Mark.inside : Mark), Event.text false "body")] ++
            Event.end_ (qn "strong") ::
              events [((Mark.null : Mark), Event.text false " text."),
                      ((Mark.null : Mark), Event.end_ (qn "body"))] :=
  ⟨⟨by decide, by decide, by decide⟩,
    (wrap_unwrap_replaces_matched_tags [Event.start (qn "strong") []]
      (Event.end_ (qn "strong"))
      [(Mark.null, Event.start (qn "body") []), (Mark.null, Event.text false "Some ")]
      [(Mark.inside, Event.text false "body")]
      [(Mark.null, Event.text false " text."), (Mark.null, Event.end_ (qn "body"))]
      (Event.start (qn "em") []) (Event.end_ (qn "em"))
      (by decide) (by decide) (by decide) (by decide)).1⟩

/-- C4 counterexample: the full pipeline `select("em").wrap("strong")
.unwrap()` applied to `<body>Some <em>body</em> text.</body>` does not
reproduce the original events — the `em` tags have become `strong`. -/
theorem wrap_unwrap_roundtrip_fails :
    events (unwrapT (wrapT [Event.start (qn "strong") []] (Event.end_ (qn "strong"))
        (selectS (selTag "em") () (markStream streamBodyEm)))) ≠ streamBodyEm := by
  decide

theorem emptyGo_collapse :
    ∀ s : List Event,
      (∀ stk : List QName, checkB stk s = true → emptyGo none s = collapseEmpty s) ∧
      (∀ (stk : List QName) (t : QName) (a : Attrs), checkB (t :: stk) s = true →
        emptyGo (some (t, a)) s = collapseEmpty (Event.start t a :: s)) := by
  intro s
  induction s with
  | nil =>
    constructor
    · intro stk _; rfl
    · intro stk t a h; simp [checkB] at h
  | cons e r ih =>
    constructor
    · intro stk h
      cases e with
      | start t2 a2 =>
        have h2 : checkB (t2 :: stk) r = true := h
        exact ih.2 stk t2 a2 h2
      | end_ t2 =>
        cases stk with
        | nil => simp [checkB] at h
        | cons t3 stk2 =>
          have h' := h
          simp only [checkB, Bool.and_eq_true] at h'
          exact congrArg _ (ih.1 stk2 h'.2)
      | text mk s2 => exact congrArg _ (ih.1 stk h)
      | comment s2 => exact congrArg _ (ih.1 stk h)
      | pi tg d => exact congrArg _ (ih.1 stk h)
      | doctype n pu sy => exact congrArg _ (ih.1 stk h)
      | startNS pf u => exact congrArg _ (ih.1 stk h)
      | endNS pf => exact congrArg _ (ih.1 stk h)
      | startCDATA => exact congrArg _ (ih.1 stk h)
      | endCDATA => exact congrArg _ (ih.1 stk h)
      | empty t2 a2 => exact congrArg _ (ih.1 stk h)
    · intro stk t a h
      cases e with
      | start t2 a2 =>
        have h2 : checkB (t2 :: t :: stk) r = true := h
        show Event.start t a :: emptyGo (some (t2, a2)) r =
          Event.start t a :: collapseEmpty (Event.start t2 a2 :: r)
        exact congrArg _ (ih.2 (t :: stk) t2 a2 h2)
      | end_ t2 =>
        have h' := h
        simp only [checkB, Bool.and_eq_true, beq_iff_eq] at h'
        obtain ⟨ht2, h2⟩ := h'
        rw [ht2]
        rw [show collapseEmpty (Event.start t a :: Event.end_ t :: r) =
          Event.empty t a :: collapseEmpty r from by simp [collapseEmpty]]
        exact congrArg _ (ih.1 stk h2)
      | text mk s2 =>
        exact congrArg _ (congrArg _ (ih.1 (t :: stk) h))
      | comment s2 => exact congrArg _ (congrArg _ (ih.1 (t :: stk) h))
      | pi tg d => exact congrArg _ (congrArg _ (ih.1 (t :: stk) h))
      | doctype n pu sy => exact congrArg _ (congrArg _ (ih.1 (t :: stk) h))
      | startNS pf u => exact congrArg _ (congrArg _ (ih.1 (t :: stk) h))
      | endNS pf => exact congrArg _ (congrArg _ (ih.1 (t :: stk) h))
      | startCDATA => exact congrArg _ (congrArg _ (ih.1 (t :: stk) h))
      | endCDATA => exact congrArg _ (congrArg _ (ih.1 (t :: stk) h))
      | empty t2 a2 => exact congrArg _ (congrArg _ (ih.1 (t :: stk) h))

/-- C5 (confirmed): on every well-formed stream, `EmptyTagFilter` equals
the claim's description `collapseEmpty` — each START immediately followed
by its matching END becomes a single EMPTY event carrying the START's
payload, every other event sequence passes through unchanged, and
adjacent empty elements are all kept. -/
theorem emptyTagFilter_eq_collapseEmpty (s : List Event) (h : wellFormed s = true) :
    emptyTagFilter s = collapseEmpty s :=
  (emptyGo_collapse s).1 [] h

/-- C5 witness: the theorem applied to `<elem></elem>`, plus the claim's
concrete cases — `<elem></elem>` gives exactly one EMPTY event,
`<elem>x</elem>` is never collapsed, and two adjacent empty elements both
survive. -/
theorem emptyTagFilter_eq_collapseEmpty_witness :
    wellFormed [Event.start (qn "elem") [], Event.end_ (qn "elem")] = true ∧
    emptyTagFilter [Event.start (qn "elem") [], Event.end_ (qn "elem")] =
      collapseEmpty [Event.start (qn "elem") [], Event.end_ (qn "elem")] ∧
    emptyTagFilter [Event.start (qn "elem") [], Event.end_ (qn "elem")] =
      [Event.empty (qn "elem") []] ∧
    emptyTagFilter
        [Event.start (qn "elem") [], Event.text false "x", Event.end_ (qn "elem")] =
      [Event.start (qn "elem") [], Event.text false "x", Event.end_ (qn "elem")] ∧
    emptyTagFilter [Event.start (qn "a") [], Event.end_ (qn "a"),
        Event.start (qn "b") [], Event.end_ (qn "b")] =
      [Event.empty (qn "a") [], Event.empty (qn "b") []] :=
  ⟨by decide, emptyTagFilter_eq_collapseEmpty _ (by decide), by decide, by decide, by decide⟩

theorem checkB_step {stk : List QName} {e : Event} {l : List Event}
    (h : checkB stk (e :: l) = true) : ∃ stk2, checkB stk2 l = true := by
  cases e with
  | start t a => exact ⟨t :: stk, h⟩
  | end_ t =>
    cases stk with
    | nil => simp [checkB] at h
    | cons t2 stk2 =>
      refine ⟨stk2, ?_⟩
      have h' := h
      simp only [checkB, Bool.and_eq_true] at h'
      exact h'.2
  | text mk s2 => exact ⟨stk, h⟩
  | comment s2 => exact ⟨stk, h⟩
  | pi tg d => exact ⟨stk, h⟩
  | doctype n pu sy => exact ⟨stk, h⟩
  | startNS pf u => exact ⟨stk, h⟩
  | endNS pf => exact ⟨stk, h⟩
  | startCDATA => exact ⟨stk, h⟩
  | endCDATA => exact ⟨stk, h⟩
  | empty t a => exact ⟨stk, h⟩

theorem selectGo_events {σ : Type} (sel : Selector σ) (hb : BoolOnly sel) :
    ∀ (s : List MEvent) (mode : Option Nat) (st : σ),
      events (selectGo sel mode st s) = events s := by
  intro s
  induction s with
  | nil => intro mode st; cases mode <;> rfl
  | cons p r ih =>
    intro mode st
    obtain ⟨m, e⟩ := p
    cases mode with
    | none =>
      rcases htest : (sel.test st e false).1 with _ | _ | e2
      · simp only [selectGo, htest, events_cons]
        rw [ih]
      · cases e <;> (simp only [selectGo, htest, events_cons]; rw [ih])
      · exact absurd htest (hb st e false e2)
    | some d =>
      by_cases hd : adjDepth d e = 0
      · simp only [selectGo, if_pos hd, events_cons]
        rw [ih]
      · simp only [selectGo, if_neg hd, events_cons]
        rw [ih]

theorem selectGo_marks {σ : Type} (sel : Selector σ) (hb : BoolOnly sel) :
    ∀ s : List MEvent,
      (∀ (st : σ) (stk : List QName), checkB stk (events s) = true →
        marksChk none (selectGo sel none st s) = true) ∧
      (∀ (st : σ) (stk1 stk2 : List QName), stk1 ≠ [] →
        checkB (stk1 ++ stk2) (events s) = true →
        marksChk (some stk1.length) (selectGo sel (some stk1.length) st s) = true) := by
  intro s
  induction s with
  | nil =>
    constructor
    · intro st stk _; rfl
    · intro st stk1 stk2 hne h
      cases stk1 with
      | nil => exact absurd rfl hne
      | cons a b => simp [events, checkB] at h
  | cons p r ih =>
    constructor
    · intro st stk h
      obtain ⟨m, e⟩ := p
      rcases htest : (sel.test st e false).1 with _ | _ | e2
      · -- noMatch: null-marked, stream continues at the stack checkB dictates
        obtain ⟨stk2, h2⟩ := checkB_step (by simpa [events] using h)
        simp only [selectGo, htest, marksChk]
        exact ih.1 _ stk2 h2
      · -- isMatch
        cases e
        case start t2 a2 =>
          have h2 : checkB ([t2] ++ stk) (events r) = true := by
            simpa [events, checkB] using h
          have hq := ih.2 ((sel.test st (Event.start t2 a2) false).2) [t2] stk
            (by simp) h2
          simp only [selectGo, htest, marksChk, isStart, List.length_cons,
            List.length_nil, Bool.true_and]
          simpa using hq
        all_goals
          obtain ⟨stk2, h2⟩ := checkB_step (by simpa [events] using h)
          simp only [selectGo, htest, marksChk, isStart, Bool.not_false, Bool.true_and]
          exact ih.1 _ stk2 h2
      · exact absurd htest (hb st e false e2)
    · intro st stk1 stk2 hne h
      obtain ⟨m, e⟩ := p
      cases stk1 with
      | nil => exact absurd rfl hne
      | cons q1 stk1' =>
        cases e
        case start t2 a2 =>
          have h2 : checkB ((t2 :: q1 :: stk1') ++ stk2) (events r) = true := by
            simpa [events, checkB] using h
          have hq := ih.2 ((sel.test st (Event.start t2 a2) true).2)
            (t2 :: q1 :: stk1') stk2 (by simp) h2
          simp only [selectGo, adjDepth, marksChk, List.length_cons] at hq ⊢
          simpa using hq
        case end_ t2 =>
          have h2 : checkB (stk1' ++ stk2) (events r) = true := by
            have h' : (t2 == q1 && checkB (stk1' ++ stk2) (events r)) = true := by
              simpa [events, checkB] using h
            simp only [Bool.and_eq_true] at h'
            exact h'.2
          cases stk1' with
          | nil =>
            simp only [selectGo, adjDepth, marksChk, List.length_cons, List.length_nil]
            simpa using ih.1 _ stk2 (by simpa using h2)
          | cons q2 stk1'' =>
            have hq := ih.2 ((sel.test st (Event.end_ t2) true).2)
              (q2 :: stk1'') stk2 (by simp) h2
            simp only [selectGo, adjDepth, marksChk, List.length_cons] at hq ⊢
            simpa using hq
        all_goals
          have h2 : checkB ((q1 :: stk1') ++ stk2) (events r) = true := by
            simpa [events, checkB] using h
          simp only [selectGo, adjDepth, marksChk, List.length_cons]
          simpa using ih.2 _ (q1 :: stk1') stk2 (by simp) h2

/-- C2 (confirmed): for every selector that answers only True/False and
every marked stream with well-formed underlying events, the Selection
stage preserves the events and produces marks of exactly the claimed
shape — `ENTER` on a matched START with `INSIDE*` and a depth-matching
`EXIT` for its subtree, `OUTSIDE` only on selected non-START events, and
the null mark `NONE` everywhere else. -/
theorem select_marks_invariant {σ : Type} (sel : Selector σ) (st : σ) (s : List MEvent)
    (hb : BoolOnly sel) (hw : wellFormed (events s) = true) :
    events (selectS sel st s) = events s ∧ marksWF (selectS sel st s) = true :=
  ⟨selectGo_events sel hb s none st, (selectGo_marks sel hb s).1 st [] hw⟩

/-- C2 witness: the theorem applied to `<a><b/><c/></a>` with the
selector `b`, plus the claim's concrete mark assignment — `ENTER` then
`EXIT` on the two events of `<b/>` and `NONE` on every other event. -/
theorem select_marks_invariant_witness :
    (wellFormed (events (markStream streamABC)) = true ∧
      (events (selectS (selTag "b") () (markStream streamABC)) =
          events (markStream streamABC) ∧
        marksWF (selectS (selTag "b") () (markStream streamABC)) = true)) ∧
    selectS (selTag "b") () (markStream streamABC) =
      [(Mark.null, Event.start (qn "a") []),
       (Mark.enter, Event.start (qn "b") []),
       (Mark.exit, Event.end_ (qn "b")),
       (Mark.null, Event.start (qn "c") []),
       (Mark.null, Event.end_ (qn "c")),
       (Mark.null, Event.end_ (qn "a"))] := by
  have hbool : BoolOnly (selTag "b") := by
    intro st e uo e2
    cases e <;> simp [selTag]
    split <;> simp
  exact ⟨⟨by decide, select_marks_invariant (selTag "b") () (markStream streamABC)
    hbool (by decide)⟩, by decide⟩

end Genshi
